import Mathlib

/-!
Verification development for the chess-opening-trainer repository.

The TypeScript sources are embedded shallowly: each exported function of
`src/utils/pgnParser.ts`, `src/utils/storage.ts` and the drill-session
component (`StudySession`) is translated into an executable Lean definition
over `List Char` / `String` data.  JavaScript regular-expression scanning is
translated into explicit character scanners with the same match semantics
(leftmost match, greedy subpatterns, global scan resuming after each match).
React `useState` updates are modelled as immediate updates of an explicit
session-state record transformed by pure step functions; the chess.js rules
engine is kept abstract as an oracle parameter, as the specification treats
it as an external collaborator.
-/

namespace ChessTrainer

/-- Whitespace as matched by the JavaScript regex class and by trimming
(ASCII part: space, tab, line feed, carriage return, vertical tab, form feed). -/
def isJsSpace (c : Char) : Bool :=
  c = ' ' || c = '\t' || c = '\n' || c = '\r' || c = '\x0b' || c = '\x0c'

/-- JavaScript `String.prototype.trim` on a character list. -/
def trimL (l : List Char) : List Char :=
  ((l.dropWhile isJsSpace).reverse.dropWhile isJsSpace).reverse

/-- The last `n` elements of a list (JavaScript `slice(-n)`). -/
def lastN (n : Nat) (l : List α) : List α :=
  (l.reverse.take n).reverse

/-- JavaScript `Array.prototype.findIndex` (first index satisfying `p`). -/
def jsFindIndex (p : α → Bool) : List α → Option Nat
  | [] => none
  | a :: l => if p a then some 0 else (jsFindIndex p l).map (· + 1)

/-- JavaScript `Array.prototype.find` (first element satisfying `p`). -/
def jsFind (p : α → Bool) : List α → Option α
  | [] => none
  | a :: l => if p a then some a else jsFind p l

/-- JavaScript element assignment `l[i] = x` on an immutable list. -/
def jsSet : List α → Nat → α → List α
  | [], _, _ => []
  | _ :: l, 0, x => x :: l
  | a :: l, n + 1, x => a :: jsSet l n x

/-- JavaScript `String.prototype.split(sep)` for a single-character
separator (`"".split(c) = [""]`, separators at the ends produce empty parts). -/
def splitOnChar (sep : Char) : List Char → List (List Char)
  | [] => [[]]
  | c :: cs =>
    if c = sep then
      [] :: splitOnChar sep cs
    else
      match splitOnChar sep cs with
      | [] => [[c]]
      | p :: ps => (c :: p) :: ps

namespace Pgn

/-- A highlighted square extracted from a `[%csl ...]` directive.  The colour
is stored as the raw leading character of the token, exactly as the source's
unchecked cast does. -/
structure SquareHighlight where
  square : String
  color : Char
deriving DecidableEq

/-- An arrow extracted from a `[%cal ...]` directive. -/
structure ArrowMark where
  fromSq : String
  toSq : String
  color : Char
deriving DecidableEq

/-- Result record of `parseCommentMarkup`. -/
structure ParsedComment where
  cleanText : String
  highlightedSquares : List SquareHighlight
  arrows : List ArrowMark
deriving DecidableEq

/-- Attempt to match the regex `tag ++ "\s+([^\]]+)\]"` at the head of `l`
(where `tag` is a literal such as `"[%csl"`).  Mirrors the JavaScript
patterns `\[%csl\s+([^\]]+)\]` and `\[%cal\s+([^\]]+)\]`: after the literal
tag the characters up to the first `]` must begin with a whitespace character
and number at least two; greedy `\s+` leaves the capture as the text after
the maximal whitespace run, except that when that text is empty one
whitespace character is given back to the capture.  Returns the total match
length together with the capture. -/
def matchDirectiveCap (tag : List Char) (l : List Char) : Option (Nat × List Char) :=
  if tag.isPrefixOf l then
    let cs := l.drop tag.length
    let t := cs.takeWhile (fun d => d ≠ ']')
    if 2 ≤ t.length ∧ (t.head?.elim false isJsSpace) = true ∧ cs.drop t.length ≠ [] then
      let body := t.dropWhile isJsSpace
      let cap := if body.isEmpty then lastN 1 t else body
      some (tag.length + t.length + 1, cap)
    else none
  else none

/-- Global scan of `matchDirectiveCap` matches, as in repeated
`RegExp.prototype.exec` with the `g` flag: the scan resumes after each match
and otherwise advances one character.  The `skip` argument counts characters
of a match that are still to be consumed. -/
def scanCaps (tag : List Char) : List Char → Nat → List (List Char)
  | [], _ => []
  | _ :: cs, skip + 1 => scanCaps tag cs skip
  | c :: cs, 0 =>
    match matchDirectiveCap tag (c :: cs) with
    | some (k, cap) => cap :: scanCaps tag cs (k - 1)
    | none => scanCaps tag cs 0

/-- Global replacement of `matchDirectiveCap` matches by the empty string
(JavaScript `String.prototype.replace` with a `g` regex). -/
def stripMatched (tag : List Char) : List Char → Nat → List Char
  | [], _ => []
  | _ :: cs, skip + 1 => stripMatched tag cs skip
  | c :: cs, 0 =>
    match matchDirectiveCap tag (c :: cs) with
    | some (k, _) => stripMatched tag cs (k - 1)
    | none => c :: stripMatched tag cs 0

/-- The literal prefix of a colored-square directive. -/
def cslTag : List Char := '[' :: '%' :: 'c' :: 's' :: 'l' :: []

/-- The literal prefix of a colored-arrow directive. -/
def calTag : List Char := '[' :: '%' :: 'c' :: 'a' :: 'l' :: []

/-- Square-token parsing of one `[%csl ...]` capture: split on commas, trim
each token, keep tokens of length at least 3 as colour character plus
lower-cased square name. -/
def parseCslList (cap : List Char) : List SquareHighlight :=
  (splitOnChar ',' cap).filterMap (fun tok =>
    let trimmed := trimL tok
    if 3 ≤ trimmed.length then
      some { square := ((trimmed.drop 1).map Char.toLower).asString
             color := trimmed.headD ' ' }
    else none)

/-- Arrow-token parsing of one `[%cal ...]` capture: split on commas, trim
each token, keep tokens of length at least 5 as colour character plus two
lower-cased squares. -/
def parseCalList (cap : List Char) : List ArrowMark :=
  (splitOnChar ',' cap).filterMap (fun tok =>
    let trimmed := trimL tok
    if 5 ≤ trimmed.length then
      some { fromSq := (((trimmed.drop 1).take 2).map Char.toLower).asString
             toSq := (((trimmed.drop 3).take 2).map Char.toLower).asString
             color := trimmed.headD ' ' }
    else none)

/-- `parseCommentMarkup` of `src/utils/pgnParser.ts`: extract all
`[%csl ...]` square lists and `[%cal ...]` arrow lists from a raw comment,
and produce the clean text by deleting exactly those two directive kinds and
trimming. -/
def parseCommentMarkup (comment : String) : ParsedComment :=
  let cs := comment.toList
  { cleanText :=
      (trimL (stripMatched calTag (stripMatched cslTag cs 0) 0)).asString
    highlightedSquares := (scanCaps cslTag cs 0).flatMap parseCslList
    arrows := (scanCaps calTag cs 0).flatMap parseCalList }

/-- Attempt to match the regex `\[%[^\]]+\]` at the head of `l`: a literal
`[%` followed by one or more characters other than `]`, then `]`.  Returns
the total match length.  This is the directive shape the specification calls
"every bracketed directive of the form `[%<word> ...]`", and the shape
`extractLineName` removes from a first-comment line. -/
def matchPercentLen (l : List Char) : Option Nat :=
  match l with
  | '[' :: '%' :: cs =>
    let t := cs.takeWhile (fun d => d ≠ ']')
    if t ≠ [] ∧ cs.drop t.length ≠ [] then some (2 + t.length + 1) else none
  | _ => none

/-- Global removal of every `[%...]` directive (any tag), with the same
resume-after-match scanning as `stripMatched`. -/
def stripAllPercent : List Char → Nat → List Char
  | [], _ => []
  | _ :: cs, skip + 1 => stripAllPercent cs skip
  | c :: cs, 0 =>
    match matchPercentLen (c :: cs) with
    | some k => stripAllPercent cs (k - 1)
    | none => c :: stripAllPercent cs 0

/-- The clean text described by the specification sentence for
`parseCommentMarkup`: the raw comment with every `[%...]`-shaped directive
removed — of any tag, not only the two recognized kinds — then trimmed. -/
def stripAllTaggedThenTrim (raw : String) : String :=
  (trimL (stripAllPercent raw.toList 0)).asString

/-- Locate the first `matchDirectiveCap` match in `l`, splitting `l` into the
text before the match, the match length and the text after the match. -/
def findMatchSplit (tag : List Char) : List Char → Option (List Char × Nat × List Char)
  | [] => none
  | c :: cs =>
    match matchDirectiveCap tag (c :: cs) with
    | some (k, _) => some ([], k, (c :: cs).drop k)
    | none => (findMatchSplit tag cs).map (fun pks => (c :: pks.1, pks.2.1, pks.2.2))

theorem matchDirectiveCap_pos {tag l : List Char} {k : Nat} {cap : List Char}
    (h : matchDirectiveCap tag l = some (k, cap)) : 1 ≤ k := by
  unfold matchDirectiveCap at h
  split at h
  · dsimp only at h
    split at h
    · simp only [Option.some.injEq, Prod.mk.injEq] at h
      omega
    · exact absurd h (by simp)
  · exact absurd h (by simp)

theorem findMatchSplit_sublt {tag : List Char} :
    ∀ {l p suf : List Char} {k : Nat},
      findMatchSplit tag l = some (p, k, suf) → suf.length < l.length := by
  intro l
  induction l with
  | nil => intro p suf k h; simp [findMatchSplit] at h
  | cons c cs ih =>
    intro p suf k h
    unfold findMatchSplit at h
    cases hm : matchDirectiveCap tag (c :: cs) with
    | some kc =>
      rw [hm] at h
      simp only [Option.some.injEq, Prod.mk.injEq] at h
      obtain ⟨-, hk, hsuf⟩ := h
      have hk1 : 1 ≤ kc.1 := matchDirectiveCap_pos (by simpa using hm)
      subst hk
      rw [← hsuf, List.length_drop]
      simp only [List.length_cons]
      omega
    | none =>
      rw [hm] at h
      cases hf : findMatchSplit tag cs with
      | none => rw [hf] at h; simp at h
      | some pks =>
        obtain ⟨p1, k1, suf1⟩ := pks
        rw [hf] at h
        simp only [Option.map_some', Option.some.injEq, Prod.mk.injEq] at h
        obtain ⟨-, -, hsuf⟩ := h
        have := ih hf
        rw [← hsuf]
        simp only [List.length_cons]
        omega

/-- Single-tag directive removal written from the specification's words: find
the first directive occurrence, delete it, and continue after it; text with
no occurrence is returned unchanged. -/
def stripTagSpec (tag : List Char) (l : List Char) : List Char :=
  match h : findMatchSplit tag l with
  | none => l
  | some pks => pks.1 ++ stripTagSpec tag pks.2.2
termination_by l.length
decreasing_by exact findMatchSplit_sublt h

theorem stripMatched_skip (tag : List Char) :
    ∀ (l : List Char) (n : Nat), stripMatched tag l n = stripMatched tag (l.drop n) 0 := by
  intro l
  induction l with
  | nil => intro n; cases n <;> simp [stripMatched]
  | cons c cs ih =>
    intro n
    cases n with
    | zero => simp
    | succ m => simpa [stripMatched] using ih m

theorem stripTagSpec_cons_of_none {tag : List Char} {c : Char} {cs : List Char}
    (h : matchDirectiveCap tag (c :: cs) = none) :
    stripTagSpec tag (c :: cs) = c :: stripTagSpec tag cs := by
  cases hf : findMatchSplit tag cs with
  | none =>
    have h1 : findMatchSplit tag (c :: cs) = none := by
      unfold findMatchSplit; rw [h, hf]; rfl
    rw [stripTagSpec, stripTagSpec]
    rw [h1, hf]
  | some pks =>
    have h1 : findMatchSplit tag (c :: cs) = some (c :: pks.1, pks.2.1, pks.2.2) := by
      unfold findMatchSplit; rw [h, hf]; rfl
    rw [stripTagSpec]
    rw [h1]
    conv_rhs => rw [stripTagSpec]
    rw [hf]
    rfl

theorem stripMatched_cons_zero (tag : List Char) (c : Char) (cs : List Char) :
    stripMatched tag (c :: cs) 0 =
      match matchDirectiveCap tag (c :: cs) with
      | some (k, _) => stripMatched tag cs (k - 1)
      | none => c :: stripMatched tag cs 0 := rfl

theorem stripMatched_eq_stripTagSpec (tag : List Char) :
    ∀ (n : Nat) (l : List Char), l.length ≤ n → stripMatched tag l 0 = stripTagSpec tag l := by
  intro n
  induction n with
  | zero =>
    intro l hl
    have : l = [] := List.eq_nil_of_length_eq_zero (Nat.le_zero.mp hl)
    subst this
    rw [stripTagSpec]
    simp [findMatchSplit, stripMatched]
  | succ n ih =>
    intro l hl
    cases l with
    | nil =>
      rw [stripTagSpec]
      simp [findMatchSplit, stripMatched]
    | cons c cs =>
      cases hm : matchDirectiveCap tag (c :: cs) with
      | some kc =>
        obtain ⟨k, cap⟩ := kc
        have hstep : stripMatched tag (c :: cs) 0 = stripMatched tag cs (k - 1) := by
          rw [stripMatched_cons_zero, hm]
        have hk1 : 1 ≤ k := matchDirectiveCap_pos hm
        have hdrop : cs.drop (k - 1) = (c :: cs).drop k := by
          obtain ⟨k0, rfl⟩ : ∃ k0, k = k0 + 1 := ⟨k - 1, by omega⟩
          simp
        have hsplit : findMatchSplit tag (c :: cs) = some ([], k, (c :: cs).drop k) := by
          unfold findMatchSplit; rw [hm]
        have hlen : ((c :: cs).drop k).length ≤ n := by
          rw [List.length_drop]
          simp only [List.length_cons] at hl ⊢
          omega
        rw [hstep, stripMatched_skip, hdrop, ih _ hlen]
        conv_rhs => rw [stripTagSpec]
        rw [hsplit]
        rfl
      | none =>
        have hstep : stripMatched tag (c :: cs) 0 = c :: stripMatched tag cs 0 := by
          rw [stripMatched_cons_zero, hm]
        have hlen : cs.length ≤ n := by
          simp only [List.length_cons] at hl; omega
        rw [hstep, ih _ hlen, stripTagSpec_cons_of_none hm]

/-- `colorToRgb` of the study-session component: the four colour letters of
the markup directives rendered as RGB strings (the TypeScript `switch` is
exhaustive over the union type, so other characters have no rendering). -/
def colorToRgb (c : Char) : Option String :=
  if c = 'Y' then some "rgb(255, 255, 0)"
  else if c = 'R' then some "rgb(255, 0, 0)"
  else if c = 'G' then some "rgb(0, 255, 0)"
  else if c = 'B' then some "rgb(0, 0, 255)"
  else none

/-- Scan for an occurrence of the regex `\{([^}]+)\}` starting at the head of
the input after an opening brace: take the characters up to the first closing
brace; the match succeeds when that span is non-empty and a closing brace
follows.  Global scan as in `extractComments`, producing the trimmed
captures in textual order. -/
def extractCommentsAux : List Char → Nat → List (List Char)
  | [], _ => []
  | _ :: cs, skip + 1 => extractCommentsAux cs skip
  | c :: cs, 0 =>
    if c = '{' then
      let t := cs.takeWhile (fun d => d ≠ '}')
      if t ≠ [] ∧ cs.drop t.length ≠ [] then
        trimL t :: extractCommentsAux cs (t.length + 1)
      else extractCommentsAux cs 0
    else extractCommentsAux cs 0

/-- `extractComments` of `src/utils/pgnParser.ts`: every `{...}` comment of
the text, trimmed, in textual order — with no regard to parenthesized
variation blocks or to which move token precedes the comment. -/
def extractComments (pgn : List Char) : List (List Char) :=
  extractCommentsAux pgn 0

/-- First `{...}` comment of the text, untrimmed capture (the non-global
regex match `extractLineName` uses as its fallback). -/
def firstCommentRaw : List Char → Nat → Option (List Char)
  | [], _ => none
  | _ :: cs, skip + 1 => firstCommentRaw cs skip
  | c :: cs, 0 =>
    if c = '{' then
      let t := cs.takeWhile (fun d => d ≠ '}')
      if t ≠ [] ∧ cs.drop t.length ≠ [] then some t
      else firstCommentRaw cs 0
    else firstCommentRaw cs 0

/-- Lazy scan for the end of a header match: the regex `\[.*?\]\n` needs,
after the opening bracket, a shortest run of non-newline characters followed
by `]` and a newline.  Returns the number of characters consumed after the
opening bracket, or `none` when a newline interrupts or the text ends. -/
def headerScanLen : List Char → Option Nat
  | ']' :: '\n' :: _ => some 2
  | '\n' :: _ => none
  | [] => none
  | _ :: cs => (headerScanLen cs).map (· + 1)

/-- Global removal of header lines, the `replace(/\[.*?\]\n/g, '')` step of
`extractCompleteLine`.  A match at `c :: cs` spans the opening bracket plus
the `headerScanLen cs` characters up to and including the newline, so after
consuming the bracket the remaining `k` characters of the match are
skipped. -/
def stripHeaders : List Char → Nat → List Char
  | [], _ => []
  | _ :: cs, skip + 1 => stripHeaders cs skip
  | c :: cs, 0 =>
    if c = '[' then
      match headerScanLen cs with
      | some k => stripHeaders cs k
      | none => c :: stripHeaders cs 0
    else c :: stripHeaders cs 0

/-- The header-stripped, trimmed text handed to the rules oracle and to
comment extraction by `extractCompleteLine`. -/
def prepGame (gameText : List Char) : List Char :=
  trimL (stripHeaders gameText 0)

/-- Match the regex `\[<key>\s+"([^"]+)"\]` at the head of `l`: the literal
bracketed key, at least one whitespace character (greedy, so the quote must
follow the maximal whitespace run), a non-empty quoted value, and the closing
bracket.  Returns the captured value. -/
def matchHeaderAt (key : List Char) (l : List Char) : Option (List Char) :=
  if ('[' :: key).isPrefixOf l then
    let cs := l.drop (key.length + 1)
    let w := cs.takeWhile isJsSpace
    if w.isEmpty then none
    else
      match cs.drop w.length with
      | '"' :: ds =>
        let v := ds.takeWhile (fun d => d ≠ '"')
        if v.isEmpty then none
        else
          match ds.drop v.length with
          | '"' :: ']' :: _ => some v
          | _ => none
      | _ => none
  else none

/-- First match of the header-value regex anywhere in the text. -/
def findHeaderValue (key : List Char) : List Char → Option (List Char)
  | [] => none
  | c :: cs =>
    match matchHeaderAt key (c :: cs) with
    | some v => some v
    | none => findHeaderValue key cs

/-- The test `/\d+\.|\.\.\./` of `extractLineName`: the text contains a digit
immediately followed by a dot, or three consecutive dots. -/
def looksLikeMovesDigitDot : List Char → Bool
  | c :: d :: rest => (c.isDigit && d = '.') || looksLikeMovesDigitDot (d :: rest)
  | _ => false

/-- Three consecutive dots somewhere in the text. -/
def hasEllipsis : List Char → Bool
  | '.' :: '.' :: '.' :: _ => true
  | _ :: rest => hasEllipsis rest
  | [] => false

/-- Whether a header value "looks like a move sequence". -/
def looksLikeMoves (l : List Char) : Bool :=
  looksLikeMovesDigitDot l || hasEllipsis l

/-- The fixed preference order of header keys tried by `extractLineName`. -/
def headerPriority : List (List Char) :=
  ["Event".toList, "Opening".toList, "Variation".toList, "ECO".toList,
   "Site".toList, "Annotator".toList, "White".toList, "Black".toList]

/-- Walk the priority list: the first present header whose value is neither
the placeholder `?` nor blank wins (the raw, untrimmed value is returned). -/
def headerFromPriority (gameText : List Char) : List (List Char) → Option (List Char)
  | [] => none
  | key :: rest =>
    match findHeaderValue key gameText with
    | some v =>
      if v ≠ ['?'] ∧ trimL v ≠ [] then some v
      else headerFromPriority gameText rest
    | none => headerFromPriority gameText rest

/-- `extractLineName` of `src/utils/pgnParser.ts`: the ChessBase
White+Black-header chapter format first, then the header priority chain, then
the cleaned first line of the first comment when it is non-empty and shorter
than 100 characters. -/
def extractLineName (gameText : List Char) : Option (List Char) :=
  let whiteBlack :=
    match findHeaderValue "White".toList gameText, findHeaderValue "Black".toList gameText with
    | some wv, some bv =>
      let whitePart := trimL wv
      let blackPart := trimL bv
      if (looksLikeMoves whitePart || looksLikeMoves blackPart) = true ∧
          whitePart ≠ ['?'] ∧ blackPart ≠ ['?'] then
        some (whitePart ++ (' ' :: '-' :: ' ' :: []) ++ blackPart)
      else none
    | _, _ => none
  match whiteBlack with
  | some nm => some nm
  | none =>
    match headerFromPriority gameText headerPriority with
    | some v => some v
    | none =>
      match firstCommentRaw gameText 0 with
      | some t =>
        let firstLine := trimL (t.takeWhile (fun d => d ≠ '\n'))
        let cleaned := trimL (stripAllPercent firstLine 0)
        if cleaned ≠ [] ∧ cleaned.length < 100 then some cleaned else none
      | none => none

/-- Split into lines at newline characters (JavaScript `split('\n')`). -/
def splitLines : List Char → List (List Char)
  | [] => [[]]
  | c :: cs =>
    if c = '\n' then [] :: splitLines cs
    else
      match splitLines cs with
      | [] => [[c]]
      | p :: ps => (c :: p) :: ps

/-- Line-accumulation loop of `splitPGNGames`: a line whose trimmed text
starts with `[Event` opens a new game provided the current buffer is
non-blank; otherwise the line is appended to the current buffer. -/
def splitPGNGamesAux : List (List Char) → List Char → List (List Char)
  | [], cur => if (trimL cur).isEmpty then [] else [cur]
  | line :: rest, cur =>
    if "[Event".toList.isPrefixOf (trimL line) ∧ ¬(trimL cur).isEmpty then
      cur :: splitPGNGamesAux rest (line ++ ['\n'])
    else splitPGNGamesAux rest (cur ++ line ++ ['\n'])

/-- `splitPGNGames` of `src/utils/pgnParser.ts`. -/
def splitPGNGames (pgnContent : List Char) : List (List Char) :=
  (splitPGNGamesAux (splitLines pgnContent) []).filter (fun g => ¬(trimL g).isEmpty)

/-- The side to move, `'w'` or `'b'` of chess.js. -/
inductive SideColor where
  | w
  | b
deriving DecidableEq

/-- One move of a parsed line (the `Move` record the complete-line parser
builds): SAN text, the side that moved, and the optional annotations of the
comment zipped with this move. -/
structure Move where
  san : String
  color : SideColor
  comment : Option String
  highlightedSquares : Option (List SquareHighlight)
  arrows : Option (List ArrowMark)
deriving DecidableEq

/-- A complete-line flashcard (the `Flashcard` record of the complete-line
parser and the drill session). -/
structure Flashcard where
  id : String
  startFen : String
  moves : List Move
  name : Option String
  easinessFactor : ℚ
  interval : Nat
  repetitions : Nat
  nextReviewDate : Nat
  lastReviewed : Option Nat
  mistakeIndices : List Nat
deriving DecidableEq

/-- The rules oracle used by parsing: `chess.loadPgn` followed by
`chess.history`, i.e. the ordered SAN list of the game's mainline, or `none`
when the move text cannot be parsed (the `catch` branch). -/
def DecodeOracle : Type := List Char → Option (List String)

/-- The move-building loop of `extractCompleteLine`: the `i`-th move of the
oracle's history is paired with the `i`-th extracted comment when one exists
(`commentIndex` advances exactly once per move while comments remain); the
side alternates from White because the game is replayed from the initial
position. -/
def buildMoves (comments : List (List Char)) : List String → Nat → List Move
  | [], _ => []
  | san :: rest, i =>
    let pc :=
      match comments.get? i with
      | some c => some (parseCommentMarkup c.asString)
      | none => none
    { san := san
      color := if i % 2 = 0 then SideColor.w else SideColor.b
      comment := pc.map (·.cleanText)
      highlightedSquares := pc.map (·.highlightedSquares)
      arrows := pc.map (·.arrows) } :: buildMoves comments rest (i + 1)

/-- `extractCompleteLine` of `src/utils/pgnParser.ts`: strip headers, feed
the text to the oracle, and zip the oracle's history with the extracted
comments; an oracle failure yields the empty move list. -/
def extractCompleteLine (oracle : DecodeOracle) (gameText : List Char) : List Move :=
  let pgnWithoutHeaders := prepGame gameText
  match oracle pgnWithoutHeaders with
  | none => []
  | some history => buildMoves (extractComments pgnWithoutHeaders) history 0

/-- The FEN of a freshly constructed chess.js instance (the standard initial
position), used as `startFen` of every flashcard. -/
def initialFen : String :=
  "rnbqkbnr/pppppppp/8/8/8/8/PPPPPPPP/RNBQKBNR w KQkq - 0 1"

/-- Flashcard construction of `parsePGNToFlashcards` for one game of the
batch (uuid generation is modelled by the fresh-id supplier `mkId` applied to
the flashcard's ordinal, `Date.now()` by the `now` parameter). -/
def mkFlashcard (ident : String) (now : Nat) (nm : Option String) (moves : List Move) :
    Flashcard :=
  { id := ident
    startFen := initialFen
    moves := moves
    name := nm
    easinessFactor := 5 / 2
    interval := 0
    repetitions := 0
    nextReviewDate := now
    lastReviewed := none
    mistakeIndices := [] }

/-- The per-game loop of `parsePGNToFlashcards`: a game whose extraction
yields no moves is skipped, every other game contributes one flashcard. -/
def parsePGNGo (oracle : DecodeOracle) (mkId : Nat → String) (now : Nat) :
    List (List Char) → Nat → List Flashcard
  | [], _ => []
  | g :: gs, k =>
    let moves := extractCompleteLine oracle g
    if moves.isEmpty then parsePGNGo oracle mkId now gs k
    else
      mkFlashcard (mkId k) now ((extractLineName g).map List.asString) moves ::
        parsePGNGo oracle mkId now gs (k + 1)

/-- `parsePGNToFlashcards` of `src/utils/pgnParser.ts` (complete-line
variant). -/
def parsePGNToFlashcards (oracle : DecodeOracle) (mkId : Nat → String) (now : Nat)
    (pgnContent : List Char) : List Flashcard :=
  parsePGNGo oracle mkId now (splitPGNGames pgnContent) 0

end Pgn

namespace Storage

open Pgn

/-- The aggregate statistics record of a repertoire. -/
structure RepStats where
  totalReviews : Nat
  correctReviews : Nat
  accuracy : Nat
deriving DecidableEq

/-- A stored repertoire: a named collection of flashcards with aggregate
counters. -/
structure Repertoire where
  id : String
  name : String
  flashcards : List Flashcard
  createdAt : Nat
  lastStudied : Option Nat
  totalCards : Nat
  streak : Nat
  longestStreak : Nat
  stats : RepStats
deriving DecidableEq

/-- The whole LocalStorage payload of the application. -/
structure StorageData where
  repertoires : List Repertoire
  version : Nat
deriving DecidableEq

/-- `getRepertoire` of `src/utils/storage.ts`. -/
def getRepertoire (ident : String) (d : StorageData) : Option Repertoire :=
  jsFind (fun r => r.id == ident) d.repertoires

/-- `saveRepertoire` of `src/utils/storage.ts`: replace the repertoire with
the same id, or append when none exists. -/
def saveRepertoire (rep : Repertoire) (d : StorageData) : StorageData :=
  match jsFindIndex (fun r => r.id == rep.id) d.repertoires with
  | some i => { d with repertoires := jsSet d.repertoires i rep }
  | none => { d with repertoires := d.repertoires ++ [rep] }

/-- `updateFlashcard` of `src/utils/storage.ts`: a missing repertoire or a
missing card id leaves the stored data untouched; otherwise the card with the
matching id is replaced and the repertoire saved. -/
def updateFlashcard (repertoireId : String) (flashcard : Flashcard) (d : StorageData) :
    StorageData :=
  match getRepertoire repertoireId d with
  | none => d
  | some repertoire =>
    match jsFindIndex (fun c => c.id == flashcard.id) repertoire.flashcards with
    | none => d
    | some cardIndex =>
      saveRepertoire
        { repertoire with flashcards := jsSet repertoire.flashcards cardIndex flashcard } d

/-- The repertoire record produced by `updateRepertoireStats`: accumulate the
session's correct/incorrect counts into the aggregate counters, recompute the
rounded accuracy percentage, reset or extend the streak, and track the
longest streak.  `Math.round` on the non-negative percentage is
floor(x + 1/2), i.e. `round` on the exact rational. -/
def statsUpdatedRep (repertoire : Repertoire) (correctCount incorrectCount : Nat)
    (streakBroken : Bool) (now : Nat) : Repertoire :=
  let totalReviews := repertoire.stats.totalReviews + correctCount + incorrectCount
  let correctReviews := repertoire.stats.correctReviews + correctCount
  let accuracy :=
    if 0 < totalReviews then
      (round ((100 * (correctReviews : ℚ)) / (totalReviews : ℚ))).toNat
    else 0
  let streak := if streakBroken then 0 else repertoire.streak + correctCount
  { repertoire with
    lastStudied := some now
    stats := { totalReviews := totalReviews, correctReviews := correctReviews,
               accuracy := accuracy }
    streak := streak
    longestStreak :=
      if repertoire.longestStreak < streak then streak else repertoire.longestStreak }

/-- `updateRepertoireStats` of `src/utils/storage.ts`: a no-op when the
repertoire is missing, otherwise the counters are accumulated and the result
saved. -/
def updateRepertoireStats (repertoireId : String) (correctCount incorrectCount : Nat)
    (streakBroken : Bool) (now : Nat) (d : StorageData) : StorageData :=
  match getRepertoire repertoireId d with
  | none => d
  | some repertoire =>
    saveRepertoire (statsUpdatedRep repertoire correctCount incorrectCount streakBroken now) d

/-- The flashcard stored under `cardId` inside the repertoire stored under
`repertoireId`. -/
def findCard (repertoireId cardId : String) (d : StorageData) : Option Flashcard :=
  (getRepertoire repertoireId d).bind (fun r => jsFind (fun c => c.id == cardId) r.flashcards)

end Storage

namespace Sm2

/-- Result record of the SM-2 computation. -/
structure SM2Result where
  easinessFactor : ℚ
  interval : Nat
  repetitions : Nat
deriving DecidableEq

/-- Modelled from the spec: `src/utils/sm2.ts` is not among the sources, only
its callers are.  Per §4.5, the outcome score the session passes (1 for a
correct session, 0 for an incorrect one) is mapped to the SuperMemo quality
scale as Correct → 4 and Incorrect → 0. -/
def sm2Quality (score : Nat) : Nat :=
  if score = 0 then 0 else 4

/-- Modelled from the spec: the SM-2 update of `src/utils/sm2.ts` (absent
from the sources).  New easiness is
`max(1.3, EF + (0.1 − (5−q)·(0.08 + (5−q)·0.02)))`; an incorrect outcome
resets repetitions to 0 with a one-day interval; a correct outcome increments
repetitions with intervals 1, 6, then `round(prior × EF')`. -/
def calculateSM2 (score : Nat) (easinessFactor : ℚ) (interval repetitions : Nat) :
    SM2Result :=
  let q := sm2Quality score
  let ef' := max (13 / 10 : ℚ)
    (easinessFactor + (1 / 10 - (5 - (q : ℚ)) * (2 / 25 + (5 - (q : ℚ)) * (1 / 50))))
  if q = 0 then
    { easinessFactor := ef', interval := 1, repetitions := 0 }
  else
    let repetitions' := repetitions + 1
    let interval' :=
      if repetitions' = 1 then 1
      else if repetitions' = 2 then 6
      else (round ((interval : ℚ) * ef')).toNat
    { easinessFactor := ef', interval := interval', repetitions := repetitions' }

/-- Modelled from the spec: `getNextReviewDate` of the absent
`src/utils/sm2.ts` — now plus the interval in days, in milliseconds. -/
def getNextReviewDate (now interval : Nat) : Nat :=
  now + interval * 86400000

/-- The SpacedRepetitionScheduler contract of spec §4.5, written from the
spec's words over the pass/fail outcome: map the outcome to quality 4 or 0,
update the easiness with the SuperMemo formula, and branch on the outcome for
interval and repetition count. -/
def scheduleSpec (outcome : Bool) (easinessFactor : ℚ) (interval repetitions : Nat) :
    SM2Result :=
  let q : Nat := if outcome then 4 else 0
  let ef' := max (13 / 10 : ℚ)
    (easinessFactor + (1 / 10 - (5 - (q : ℚ)) * (2 / 25 + (5 - (q : ℚ)) * (1 / 50))))
  if outcome then
    let repetitions' := repetitions + 1
    let interval' :=
      if repetitions' = 1 then 1
      else if repetitions' = 2 then 6
      else (round ((interval : ℚ) * ef')).toNat
    { easinessFactor := ef', interval := interval', repetitions := repetitions' }
  else
    { easinessFactor := ef', interval := 1, repetitions := 0 }

end Sm2

namespace Session

open Pgn Storage Sm2

/-- The annotations of one move as kept for display (`MoveAnnotations`). -/
structure MoveAnnots where
  comment : Option String
  highlightedSquares : Option (List SquareHighlight)
  arrows : Option (List ArrowMark)
deriving DecidableEq

/-- The annotations record of a move. -/
def annotsOf (mv : Move) : MoveAnnots :=
  { comment := mv.comment
    highlightedSquares := mv.highlightedSquares
    arrows := mv.arrows }

/-- One entry of the played-move display list. -/
structure PlayedMove where
  san : String
  color : SideColor
  moveNumber : Nat
deriving DecidableEq

/-- The drill-session state of the `StudySession` component: the chess.js
board (abstract position type `Pos`), the cursor into the line's move list,
the session counters, hint error count, feedback flag, the last-seen
annotations per side, the played-move display list, the auto-play flag, and
the session-local mistake set (a JavaScript `Set`, modelled as its
insertion-ordered duplicate-free list).  React `useState` cells are modelled
as fields of this record: each event handler maps the state of the render it
was created in to the state of the next render.  Same-tick closure reads of
values written earlier in the tick — which in React still see the old render
state — are modelled explicitly where they matter, in
`playOpponentMoves`. -/
structure SessionState (Pos : Type) where
  board : Pos
  currentMoveIndex : Nat
  sessionCorrect : Nat
  sessionIncorrect : Nat
  errorCount : Nat
  showFeedback : Bool
  lastWhiteMove : Option MoveAnnots
  lastBlackMove : Option MoveAnnots
  playedMoves : List PlayedMove
  isAutoPlaying : Bool
  moveMistakes : List Nat
deriving DecidableEq

/-- JavaScript `new Set([...prev, x])`: append `x` unless present. -/
def setInsert (x : Nat) (l : List Nat) : List Nat :=
  if x ∈ l then l else l ++ [x]

/-- `currentExpectedMove`: the next move of the line at or after the cursor
whose side is White (the side the user plays), with its index. -/
def currentExpectedMove (card : Flashcard) (currentMoveIndex : Nat) : Option (Move × Nat) :=
  (jsFind (fun im => im.2.color == SideColor.w)
    ((card.moves.enum.drop currentMoveIndex))).map (fun im => (im.2, im.1))

/-- `currentFullMove`: the count of White moves among indices
`0..currentMoveIndex` of the line (the chess move number of the current
position). -/
def currentFullMove (card : Flashcard) (currentMoveIndex : Nat) : Nat :=
  ((card.moves.take (currentMoveIndex + 1)).filter (fun m => m.color == SideColor.w)).length

/-- `loadCard`: the fresh session state for a card — board at the start
position, cursor 0, cleared counters and annotations, and the mistake set
initialised from the card's saved `mistakeIndices`. -/
def initSession {Pos : Type} (loadFen : String → Pos) (card : Flashcard) : SessionState Pos :=
  { board := loadFen card.startFen
    currentMoveIndex := 0
    sessionCorrect := 0
    sessionIncorrect := 0
    errorCount := 0
    showFeedback := false
    lastWhiteMove := none
    lastBlackMove := none
    playedMoves := []
    isAutoPlaying := false
    moveMistakes := card.mistakeIndices }

/-- `Array.from(mistakes).sort((a, b) => a - b)` followed by the first-in-range
scan of `autoPlayToFirstMistake`: the first recorded mistake index that is a
valid index into the move list, in ascending order. -/
def firstMistakeIndex (card : Flashcard) : Option Nat :=
  jsFind (fun i => decide (i < card.moves.length))
    (card.mistakeIndices.insertionSort (· ≤ ·))

/-- One iteration of the auto-play loop: apply the move on the board, append
it to the played-move display (last 12 kept), surface its annotations for its
side (a White move clears the Black annotation), and advance the cursor. -/
def autoStep {Pos : Type} (st : SessionState Pos) (idx : Nat) (mv : Move) (b' : Pos) :
    SessionState Pos :=
  { st with
    board := b'
    playedMoves := lastN 12 (st.playedMoves ++ [⟨mv.san, mv.color, idx / 2 + 1⟩])
    lastWhiteMove := if mv.color == SideColor.w then some (annotsOf mv) else st.lastWhiteMove
    lastBlackMove := if mv.color == SideColor.w then none else some (annotsOf mv)
    currentMoveIndex := idx + 1 }

/-- The auto-play loop over the indexed prefix of moves before the first
mistake; a move the oracle rejects breaks the loop. -/
def autoPlayGo {Pos : Type} (applySan : Pos → String → Option Pos) :
    SessionState Pos → List (Nat × Move) → SessionState Pos
  | st, [] => st
  | st, (idx, mv) :: rest =>
    match applySan st.board mv.san with
    | none => st
    | some b' => autoPlayGo applySan (autoStep st idx mv b') rest

/-- `autoPlayToFirstMistake`: when the card records a prior mistake inside
the move list, replay every move before the earliest such index; otherwise
leave the fresh state as it is. -/
def autoPlayToFirstMistake {Pos : Type} (applySan : Pos → String → Option Pos)
    (card : Flashcard) (st : SessionState Pos) : SessionState Pos :=
  match firstMistakeIndex card with
  | none => st
  | some m => autoPlayGo applySan st ((card.moves.take m).enum)

/-- `loadCard` followed by the scheduled `autoPlayToFirstMistake`. -/
def loadCard {Pos : Type} (loadFen : String → Pos) (applySan : Pos → String → Option Pos)
    (card : Flashcard) : SessionState Pos :=
  autoPlayToFirstMistake applySan card (initSession loadFen card)

/-- The result of processing one session event: either the session continues
in a new state, or it ended, carrying the `success` and `updateCard` flags
`completeSession` was invoked with together with the final state. -/
inductive SessionStep (Pos : Type) where
  | running (st : SessionState Pos)
  | finished (success : Bool) (updateCard : Bool) (final : SessionState Pos)
deriving DecidableEq

/-- The while-loop of `playOpponentMoves`: play consecutive Black moves from
index `i`, stopping at the first White move, the end of the line, or a move
the oracle rejects.  Returns the board, the next index, the played entries
and the index of the last Black move played. -/
def playBlacksGo {Pos : Type} (applySan : Pos → String → Option Pos) (moveNumber : Nat) :
    List Move → Pos → Nat → Pos × Nat × List PlayedMove × Option Nat
  | [], b, i => (b, i, [], none)
  | mv :: rest, b, i =>
    if mv.color == SideColor.b then
      match applySan b mv.san with
      | some b' =>
        let r := playBlacksGo applySan moveNumber rest b' (i + 1)
        (r.1, r.2.1, ⟨mv.san, SideColor.b, moveNumber⟩ :: r.2.2.1,
          some (r.2.2.2.getD i))
      | none => (b, i, [], none)
    else (b, i, [], none)

/-- `playOpponentMoves`: auto-play the consecutive Black replies after the
cursor, surface the last Black reply's annotations, advance the cursor and
clear the feedback flag.  The function runs, via `setTimeout`, in the
closure of the render that scheduled it: `render` is that render's state
(what its `const` reads yield) and `st` is `render` with the `setState`
writes already queued in this tick applied, its board being the mutable
chess instance, which already holds the user's move.  The two states agree
on every field the loop reads (`currentMoveIndex`, `sessionIncorrect`, the
mistake set).  When the cursor reaches the end of the line,
`completeSession(true)` is invoked synchronously in the same closure, so
the values it hands to storage are the closure's: the pre-clear
`moveMistakes` and the pre-increment `sessionCorrect`.  The
`setMoveMistakes(new Set())` write issued when the closure's
`sessionIncorrect` is zero only lands in the React store after this tick,
and the navigation performed by `completeSession` unmounts the component,
so the cleared set is never read by anyone and is omitted here. -/
def playOpponentMoves {Pos : Type} (applySan : Pos → String → Option Pos)
    (card : Flashcard) (render st : SessionState Pos) : SessionStep Pos :=
  let start := render.currentMoveIndex + 1
  let moveNumber := currentFullMove card render.currentMoveIndex
  let r := playBlacksGo applySan moveNumber (card.moves.drop start) st.board start
  let nextIndex := r.2.1
  let st1 : SessionState Pos :=
    { st with
      board := r.1
      playedMoves :=
        if (r.2.2.1).isEmpty then st.playedMoves
        else lastN 12 (st.playedMoves ++ r.2.2.1)
      lastBlackMove :=
        match r.2.2.2 with
        | some j => (card.moves.get? j).map annotsOf
        | none => st.lastBlackMove
      currentMoveIndex := nextIndex
      showFeedback := false }
  if card.moves.length ≤ nextIndex then
    SessionStep.finished true true
      { st1 with
        moveMistakes := render.moveMistakes
        sessionCorrect := render.sessionCorrect
        sessionIncorrect := render.sessionIncorrect }
  else SessionStep.running st1

/-- `handleCorrectMove` (the state part): board already holds the applied
move; flash the correct feedback, count the correct answer, reset the hint
error counter, append the move to the display list, and surface its
annotations while clearing the Black ones. -/
def correctUpdate {Pos : Type} (st : SessionState Pos) (b' : Pos) (em : Move)
    (moveNumber : Nat) : SessionState Pos :=
  { st with
    board := b'
    showFeedback := true
    sessionCorrect := st.sessionCorrect + 1
    errorCount := 0
    playedMoves := lastN 12 (st.playedMoves ++ [⟨em.san, SideColor.w, moveNumber⟩])
    lastWhiteMove := some (annotsOf em)
    lastBlackMove := none }

/-- `handleIncorrectMove`: the speculative move was rolled back; bump the
hint error counter, flash incorrect feedback, count the incorrect answer, and
record the expected move's index in the session-local mistake set. -/
def handleIncorrectMove {Pos : Type} (st : SessionState Pos) (expectedIndex : Nat) :
    SessionState Pos :=
  { st with
    errorCount := st.errorCount + 1
    showFeedback := true
    sessionIncorrect := st.sessionIncorrect + 1
    moveMistakes := setInsert expectedIndex st.moveMistakes }

/-- A user move attempt (`handleSquareClick` with the gesture abstracted to
the canonical SAN the oracle produces for it): ignored while auto-playing or
when no expected move remains; an illegal gesture is swallowed; a legal move
equal to the expected SAN triggers the correct path followed by the scheduled
`playOpponentMoves`, which runs in this event's closure, so it receives both
the render state `st` and the accumulated update `correctUpdate st ...`; any
other legal move is rolled back and handled as incorrect. -/
def handleAttempt {Pos : Type} (applySan : Pos → String → Option Pos) (card : Flashcard)
    (st : SessionState Pos) (san : String) : SessionStep Pos :=
  match currentExpectedMove card st.currentMoveIndex with
  | none => SessionStep.running st
  | some (em, expectedIndex) =>
    if st.isAutoPlaying then SessionStep.running st
    else
      match applySan st.board san with
      | none => SessionStep.running st
      | some b' =>
        if san = em.san then
          playOpponentMoves applySan card st
            (correctUpdate st b' em (currentFullMove card st.currentMoveIndex))
        else SessionStep.running (handleIncorrectMove st expectedIndex)

/-- The score `completeSession` passes to `calculateSM2`
(`success ? 1 : 0`). -/
def sm2Score (success : Bool) : Nat :=
  if success then 1 else 0

/-- The flashcard update of `completeSession`: with `updateCard` the SM-2
result replaces the scheduling fields and the mistake set is replaced by the
session-local one; on a manual exit (`updateCard = false`) only the mistake
set is replaced. -/
def applySessionToCard (now : Nat) (success updateCard : Bool) (mistakes : List Nat)
    (card : Flashcard) : Flashcard :=
  if updateCard then
    let sm2Result :=
      calculateSM2 (sm2Score success) card.easinessFactor card.interval card.repetitions
    { card with
      easinessFactor := sm2Result.easinessFactor
      interval := sm2Result.interval
      repetitions := sm2Result.repetitions
      nextReviewDate := getNextReviewDate now sm2Result.interval
      lastReviewed := some now
      mistakeIndices := mistakes }
  else { card with mistakeIndices := mistakes }

/-- The storage effects of `completeSession`: persist the updated flashcard,
then update the repertoire's aggregate counters with the session's correct
and incorrect counts, the streak broken exactly when an incorrect attempt
occurred. -/
def completeSessionStore {Pos : Type} (now : Nat) (repertoireId : String) (card : Flashcard)
    (success updateCard : Bool) (st : SessionState Pos) (d : StorageData) : StorageData :=
  let d1 := updateFlashcard repertoireId
    (applySessionToCard now success updateCard st.moveMistakes card) d
  updateRepertoireStats repertoireId st.sessionCorrect st.sessionIncorrect
    (decide (0 < st.sessionIncorrect)) now d1

/-- `handleExit`: a user-initiated exit completes the session with
`completeSession(false, false)`. -/
def handleExit {Pos : Type} (st : SessionState Pos) : SessionStep Pos :=
  SessionStep.finished false false st

/-- A session event: a user move attempt or the back-button exit. -/
inductive Event where
  | attempt (san : String)
  | exitSession
deriving DecidableEq

/-- Process one event; a finished session absorbs further events. -/
def stepEvent {Pos : Type} (applySan : Pos → String → Option Pos) (card : Flashcard) :
    SessionStep Pos → Event → SessionStep Pos
  | SessionStep.running st, Event.attempt san => handleAttempt applySan card st san
  | SessionStep.running st, Event.exitSession => handleExit st
  | done, _ => done

/-- Run a session from a loaded card through a list of events. -/
def runEvents {Pos : Type} (loadFen : String → Pos) (applySan : Pos → String → Option Pos)
    (card : Flashcard) (events : List Event) : SessionStep Pos :=
  events.foldl (stepEvent applySan card)
    (SessionStep.running (loadCard loadFen applySan card))

/-- The `success` flag of a finished session. -/
def successFlag {Pos : Type} : SessionStep Pos → Option Bool
  | SessionStep.finished s _ _ => some s
  | SessionStep.running _ => none

/-- The score handed to `calculateSM2` by a finished session, `none` when the
scheduler is not invoked (`updateCard = false`). -/
def scoreHanded {Pos : Type} : SessionStep Pos → Option Nat
  | SessionStep.finished s u _ => if u then some (sm2Score s) else none
  | SessionStep.running _ => none

/-- The session-incorrect counter of a finished session. -/
def finalIncorrect {Pos : Type} : SessionStep Pos → Option Nat
  | SessionStep.finished _ _ st => some st.sessionIncorrect
  | SessionStep.running _ => none

/-- Oracle application folded over a list of moves: the board reached by
applying each SAN in order, `none` as soon as one application fails. -/
def foldSans {Pos : Type} (applySan : Pos → String → Option Pos) :
    Pos → List Move → Option Pos
  | b, [] => some b
  | b, mv :: rest =>
    match applySan b mv.san with
    | some b' => foldSans applySan b' rest
    | none => none

/-- The pair (last White annotation, last Black annotation) surfaced after
replaying a list of moves in order: a White move installs its annotations and
clears the Black slot, a Black move installs its annotations and keeps the
White slot. -/
def annotsFold : List Move → Option MoveAnnots × Option MoveAnnots →
    Option MoveAnnots × Option MoveAnnots
  | [], p => p
  | mv :: rest, p =>
    annotsFold rest
      (if mv.color == SideColor.w then (some (annotsOf mv), none)
       else (p.1, some (annotsOf mv)))

end Session

namespace Lemmas

open Pgn Storage Sm2 Session

theorem jsFind_eq_some_imp {α : Type _} (p : α → Bool) :
    ∀ {l : List α} {a : α}, jsFind p l = some a → p a = true := by
  intro l
  induction l with
  | nil => intro a h; simp [jsFind] at h
  | cons x xs ih =>
    intro a h
    unfold jsFind at h
    by_cases hx : p x = true
    · rw [if_pos hx] at h
      cases h
      exact hx
    · rw [if_neg hx] at h
      exact ih h

theorem jsFind_of_jsFindIndex_none {α : Type _} (p : α → Bool) :
    ∀ {l : List α}, jsFindIndex p l = none → jsFind p l = none := by
  intro l
  induction l with
  | nil => intro _; rfl
  | cons x xs ih =>
    intro h
    unfold jsFindIndex at h
    by_cases hx : p x = true
    · rw [if_pos hx] at h; cases h
    · rw [if_neg hx] at h
      unfold jsFind
      rw [if_neg hx]
      exact ih (by
        cases hfi : jsFindIndex p xs with
        | none => rfl
        | some i => rw [hfi] at h; simp at h)

theorem jsFind_append_right {α : Type _} (p : α → Bool) :
    ∀ {l l' : List α}, jsFind p l = none → jsFind p (l ++ l') = jsFind p l' := by
  intro l
  induction l with
  | nil => intro l' _; rfl
  | cons x xs ih =>
    intro l' h
    simp only [jsFind] at h
    by_cases hx : p x = true
    · rw [if_pos hx] at h; cases h
    · rw [if_neg hx] at h
      rw [List.cons_append]
      simp only [jsFind]
      rw [if_neg hx]
      exact ih h

theorem jsFind_jsSet {α : Type _} (p : α → Bool) :
    ∀ {l : List α} {i : Nat} {x : α},
      jsFindIndex p l = some i → p x = true → jsFind p (jsSet l i x) = some x := by
  intro l
  induction l with
  | nil => intro i x h _; simp [jsFindIndex] at h
  | cons a as ih =>
    intro i x h hx
    unfold jsFindIndex at h
    by_cases ha : p a = true
    · rw [if_pos ha] at h
      cases h
      unfold jsSet jsFind
      rw [if_pos hx]
    · rw [if_neg ha] at h
      cases hfi : jsFindIndex p as with
      | none => rw [hfi] at h; simp at h
      | some j =>
        rw [hfi] at h
        simp only [Option.map_some', Option.some.injEq] at h
        subst h
        unfold jsSet jsFind
        rw [if_neg ha]
        exact ih hfi hx

theorem getRepertoire_saveRepertoire_self (rep' : Repertoire) (d : StorageData) :
    getRepertoire rep'.id (saveRepertoire rep' d) = some rep' := by
  unfold getRepertoire saveRepertoire
  cases hidx : jsFindIndex (fun r => r.id == rep'.id) d.repertoires with
  | some i =>
    exact jsFind_jsSet _ hidx (by simp)
  | none =>
    dsimp only
    rw [jsFind_append_right _ (jsFind_of_jsFindIndex_none _ hidx)]
    unfold jsFind
    simp

theorem getRepertoire_id {rid : String} {d : StorageData} {rep : Repertoire}
    (h : getRepertoire rid d = some rep) : rep.id = rid := by
  have := jsFind_eq_some_imp _ h
  simpa using this

theorem applySessionToCard_id (now : Nat) (success updateCard : Bool) (mistakes : List Nat)
    (card : Flashcard) :
    (applySessionToCard now success updateCard mistakes card).id = card.id := by
  unfold applySessionToCard
  by_cases hu : updateCard = true
  · rw [if_pos hu]
  · rw [if_neg hu]

theorem applySessionToCard_mistakeIndices (now : Nat) (success updateCard : Bool)
    (mistakes : List Nat) (card : Flashcard) :
    (applySessionToCard now success updateCard mistakes card).mistakeIndices = mistakes := by
  unfold applySessionToCard
  by_cases hu : updateCard = true
  · rw [if_pos hu]
  · rw [if_neg hu]

/-- Record helper for proofs: a repertoire with its flashcard list replaced. -/
def repWithCards (r : Repertoire) (cards : List Flashcard) : Repertoire :=
  { r with flashcards := cards }

theorem repWithCards_id (r : Repertoire) (cards : List Flashcard) :
    (repWithCards r cards).id = r.id := rfl

theorem repWithCards_flashcards (r : Repertoire) (cards : List Flashcard) :
    (repWithCards r cards).flashcards = cards := rfl

theorem repWithCards_stats (r : Repertoire) (cards : List Flashcard) :
    (repWithCards r cards).stats = r.stats := rfl

theorem repWithCards_streak (r : Repertoire) (cards : List Flashcard) :
    (repWithCards r cards).streak = r.streak := rfl

theorem repWithCards_longest (r : Repertoire) (cards : List Flashcard) :
    (repWithCards r cards).longestStreak = r.longestStreak := rfl

theorem if_decide_pos (i a : Nat) :
    (if decide (0 < i) = true then 0 else a) = (if i = 0 then a else 0) := by
  by_cases h : i = 0
  · subst h
    simp
  · have hpos : 0 < i := Nat.pos_of_ne_zero h
    simp [h, hpos]

theorem statsUpdatedRep_id (r : Repertoire) (c i : Nat) (br : Bool) (now : Nat) :
    (statsUpdatedRep r c i br now).id = r.id := rfl

theorem statsUpdatedRep_flashcards (r : Repertoire) (c i : Nat) (br : Bool) (now : Nat) :
    (statsUpdatedRep r c i br now).flashcards = r.flashcards := rfl

theorem statsUpdatedRep_total (r : Repertoire) (c i : Nat) (br : Bool) (now : Nat) :
    (statsUpdatedRep r c i br now).stats.totalReviews = r.stats.totalReviews + c + i := rfl

theorem statsUpdatedRep_correct (r : Repertoire) (c i : Nat) (br : Bool) (now : Nat) :
    (statsUpdatedRep r c i br now).stats.correctReviews = r.stats.correctReviews + c := rfl

theorem statsUpdatedRep_streak (r : Repertoire) (c i : Nat) (br : Bool) (now : Nat) :
    (statsUpdatedRep r c i br now).streak = if br then 0 else r.streak + c := rfl

theorem statsUpdatedRep_longest (r : Repertoire) (c i : Nat) (br : Bool) (now : Nat) :
    (statsUpdatedRep r c i br now).longestStreak =
      if r.longestStreak < (if br then 0 else r.streak + c) then (if br then 0 else r.streak + c)
      else r.longestStreak := rfl

theorem updateFlashcard_found {rid : String} {fc : Flashcard} {d : StorageData}
    {rep : Repertoire} {j : Nat}
    (hrep : getRepertoire rid d = some rep)
    (hidx : jsFindIndex (fun c => c.id == fc.id) rep.flashcards = some j) :
    updateFlashcard rid fc d = saveRepertoire (repWithCards rep (jsSet rep.flashcards j fc)) d := by
  unfold updateFlashcard
  rw [hrep]
  dsimp only
  rw [hidx]
  rfl

theorem updateRepertoireStats_found {rid : String} {c i : Nat} {br : Bool} {now : Nat}
    {d : StorageData} {rep : Repertoire}
    (hrep : getRepertoire rid d = some rep) :
    updateRepertoireStats rid c i br now d = saveRepertoire (statsUpdatedRep rep c i br now) d := by
  unfold updateRepertoireStats
  rw [hrep]

/-- Characterisation of the storage effects of `completeSession`: when the
repertoire exists and holds a card with the session card's id, the final
store holds the card updated by `applySessionToCard` and the repertoire's
aggregate counters updated by the session's counts. -/
theorem completeSessionStore_spec {Pos : Type} (now : Nat) (rid : String) (card : Flashcard)
    (success updateCard : Bool) (st : SessionState Pos) (d : StorageData)
    (rep : Repertoire) (j : Nat)
    (hrep : getRepertoire rid d = some rep)
    (hidx : jsFindIndex (fun c => c.id == card.id) rep.flashcards = some j) :
    findCard rid card.id (completeSessionStore now rid card success updateCard st d) =
      some (applySessionToCard now success updateCard st.moveMistakes card) ∧
    (getRepertoire rid (completeSessionStore now rid card success updateCard st d)).map
        (fun r => (r.stats.totalReviews, r.stats.correctReviews, r.streak, r.longestStreak)) =
      some (rep.stats.totalReviews + st.sessionCorrect + st.sessionIncorrect,
            rep.stats.correctReviews + st.sessionCorrect,
            (if st.sessionIncorrect = 0 then rep.streak + st.sessionCorrect else 0),
            (if rep.longestStreak <
                  (if st.sessionIncorrect = 0 then rep.streak + st.sessionCorrect else 0)
             then (if st.sessionIncorrect = 0 then rep.streak + st.sessionCorrect else 0)
             else rep.longestStreak)) := by
  have hcid := applySessionToCard_id now success updateCard st.moveMistakes card
  have h1 : updateFlashcard rid (applySessionToCard now success updateCard st.moveMistakes card) d =
      saveRepertoire
        (repWithCards rep
          (jsSet rep.flashcards j (applySessionToCard now success updateCard st.moveMistakes card)))
        d := by
    apply updateFlashcard_found hrep
    simp only [hcid]
    exact hidx
  have hget1 : getRepertoire rid
      (saveRepertoire
        (repWithCards rep
          (jsSet rep.flashcards j (applySessionToCard now success updateCard st.moveMistakes card)))
        d) =
      some (repWithCards rep
        (jsSet rep.flashcards j (applySessionToCard now success updateCard st.moveMistakes card))) := by
    have hid : (repWithCards rep
        (jsSet rep.flashcards j
          (applySessionToCard now success updateCard st.moveMistakes card))).id = rid := by
      rw [repWithCards_id]
      exact getRepertoire_id hrep
    rw [← hid]
    exact getRepertoire_saveRepertoire_self _ _
  have hfinal : completeSessionStore now rid card success updateCard st d =
      saveRepertoire
        (statsUpdatedRep
          (repWithCards rep
            (jsSet rep.flashcards j (applySessionToCard now success updateCard st.moveMistakes card)))
          st.sessionCorrect st.sessionIncorrect (decide (0 < st.sessionIncorrect)) now)
        (saveRepertoire
          (repWithCards rep
            (jsSet rep.flashcards j (applySessionToCard now success updateCard st.moveMistakes card)))
          d) := by
    unfold completeSessionStore
    dsimp only
    rw [h1]
    exact updateRepertoireStats_found hget1
  have hget2 : getRepertoire rid
      (saveRepertoire
        (statsUpdatedRep
          (repWithCards rep
            (jsSet rep.flashcards j (applySessionToCard now success updateCard st.moveMistakes card)))
          st.sessionCorrect st.sessionIncorrect (decide (0 < st.sessionIncorrect)) now)
        (saveRepertoire
          (repWithCards rep
            (jsSet rep.flashcards j (applySessionToCard now success updateCard st.moveMistakes card)))
          d)) =
      some (statsUpdatedRep
          (repWithCards rep
            (jsSet rep.flashcards j (applySessionToCard now success updateCard st.moveMistakes card)))
          st.sessionCorrect st.sessionIncorrect (decide (0 < st.sessionIncorrect)) now) := by
    have hid : (statsUpdatedRep
        (repWithCards rep
          (jsSet rep.flashcards j (applySessionToCard now success updateCard st.moveMistakes card)))
        st.sessionCorrect st.sessionIncorrect (decide (0 < st.sessionIncorrect)) now).id = rid := by
      rw [statsUpdatedRep_id, repWithCards_id]
      exact getRepertoire_id hrep
    rw [← hid]
    exact getRepertoire_saveRepertoire_self _ _
  constructor
  · unfold findCard
    rw [hfinal, hget2, Option.some_bind']
    rw [statsUpdatedRep_flashcards, repWithCards_flashcards]
    apply jsFind_jsSet _ hidx
    simp [hcid]
  · rw [hfinal, hget2]
    rw [Option.map_some']
    rw [statsUpdatedRep_total, statsUpdatedRep_correct, statsUpdatedRep_streak,
      statsUpdatedRep_longest, repWithCards_stats, repWithCards_streak, repWithCards_longest]
    rw [if_decide_pos]

/-- When `playOpponentMoves` finishes the session, the flags passed to
`completeSession` are `success = true` and `updateCard = true`, and the
values the final state hands to storage are the scheduling closure's: its
mistake set (never the cleared one) and its session counters. -/
theorem playOpponentMoves_finished {Pos : Type} {applySan : Pos → String → Option Pos}
    {card : Flashcard} {render st : SessionState Pos} {s u : Bool} {stF : SessionState Pos}
    (h : playOpponentMoves applySan card render st = SessionStep.finished s u stF) :
    s = true ∧ u = true ∧
    stF.moveMistakes = render.moveMistakes ∧
    stF.sessionCorrect = render.sessionCorrect ∧
    stF.sessionIncorrect = render.sessionIncorrect := by
  unfold playOpponentMoves at h
  dsimp only at h
  split at h
  · cases h
    exact ⟨rfl, rfl, rfl, rfl, rfl⟩
  · cases h

theorem autoPlayGo_spec {Pos : Type} (applySan : Pos → String → Option Pos) :
    ∀ (xs : List Move) (j : Nat) (st : SessionState Pos) (bF : Pos),
      st.currentMoveIndex = j →
      foldSans applySan st.board xs = some bF →
      (autoPlayGo applySan st (List.enumFrom j xs)).board = bF ∧
      (autoPlayGo applySan st (List.enumFrom j xs)).currentMoveIndex = j + xs.length ∧
      ((autoPlayGo applySan st (List.enumFrom j xs)).lastWhiteMove,
        (autoPlayGo applySan st (List.enumFrom j xs)).lastBlackMove) =
          annotsFold xs (st.lastWhiteMove, st.lastBlackMove) ∧
      (autoPlayGo applySan st (List.enumFrom j xs)).moveMistakes = st.moveMistakes ∧
      (autoPlayGo applySan st (List.enumFrom j xs)).sessionCorrect = st.sessionCorrect ∧
      (autoPlayGo applySan st (List.enumFrom j xs)).sessionIncorrect = st.sessionIncorrect := by
  intro xs
  induction xs with
  | nil =>
    intro j st bF hj hf
    unfold foldSans at hf
    cases hf
    exact ⟨rfl, hj, rfl, rfl, rfl, rfl⟩
  | cons mv rest ih =>
    intro j st bF hj hf
    unfold foldSans at hf
    cases happ : applySan st.board mv.san with
    | none => rw [happ] at hf; cases hf
    | some b1 =>
      rw [happ] at hf
      have hstep : List.enumFrom j (mv :: rest) = (j, mv) :: List.enumFrom (j + 1) rest := rfl
      rw [hstep]
      unfold autoPlayGo
      rw [happ]
      have hst' : (autoStep st j mv b1).currentMoveIndex = j + 1 := rfl
      have hb' : (autoStep st j mv b1).board = b1 := rfl
      have := ih (j + 1) (autoStep st j mv b1) bF hst' (by rw [hb']; exact hf)
      obtain ⟨hB, hI, hA, hM, hC, hInc⟩ := this
      refine ⟨hB, ?_, ?_, hM, hC, hInc⟩
      · rw [hI]
        simp only [List.length_cons]
        omega
      · rw [hA]
        have hrhs : annotsFold (mv :: rest) (st.lastWhiteMove, st.lastBlackMove) =
            annotsFold rest
              (if (mv.color == SideColor.w) = true then (some (annotsOf mv), none)
               else (st.lastWhiteMove, some (annotsOf mv))) := rfl
        rw [hrhs]
        congr 1
        by_cases hw : (mv.color == SideColor.w) = true
        · have h1 : (autoStep st j mv b1).lastWhiteMove = some (annotsOf mv) := by
            show (if (mv.color == SideColor.w) = true then some (annotsOf mv)
              else st.lastWhiteMove) = some (annotsOf mv)
            rw [if_pos hw]
          have h2 : (autoStep st j mv b1).lastBlackMove = none := by
            show (if (mv.color == SideColor.w) = true then none
              else some (annotsOf mv)) = none
            rw [if_pos hw]
          rw [h1, h2, if_pos hw]
        · have h1 : (autoStep st j mv b1).lastWhiteMove = st.lastWhiteMove := by
            show (if (mv.color == SideColor.w) = true then some (annotsOf mv)
              else st.lastWhiteMove) = st.lastWhiteMove
            rw [if_neg hw]
          have h2 : (autoStep st j mv b1).lastBlackMove = some (annotsOf mv) := by
            show (if (mv.color == SideColor.w) = true then none
              else some (annotsOf mv)) = some (annotsOf mv)
            rw [if_neg hw]
          rw [h1, h2, if_neg hw]

theorem get?_some_drop {α : Type _} :
    ∀ (l : List α) (i : Nat) (a : α),
      l.get? i = some a → l.drop i = a :: l.drop (i + 1) := by
  intro l
  induction l with
  | nil => intro i a h; cases i <;> cases h
  | cons x xs ih =>
    intro i a h
    cases i with
    | zero =>
      cases h
      rfl
    | succ i =>
      have := ih i a h
      simpa using this

theorem get?_none_le {α : Type _} :
    ∀ (l : List α) (i : Nat), l.get? i = none → l.length ≤ i := by
  intro l
  induction l with
  | nil => intro i _; exact Nat.zero_le i
  | cons x xs ih =>
    intro i h
    cases i with
    | zero => cases h
    | succ i =>
      have := ih i h
      simpa [Nat.succ_le_succ_iff] using this

theorem jsFind_head_of_all {α : Type _} (p : α → Bool) :
    ∀ {l : List α}, (∀ x ∈ l, p x = true) → jsFind p l = l.head? := by
  intro l
  cases l with
  | nil => intro _; rfl
  | cons x xs =>
    intro h
    unfold jsFind
    rw [if_pos (h x (List.mem_cons_self x xs))]
    rfl

theorem parsePGNGo_all (oracle : DecodeOracle) (mkId : Nat → String) (now : Nat) :
    ∀ (gs : List (List Char)) (k : Nat),
      ((parsePGNGo oracle mkId now gs k).all (fun fc => !fc.moves.isEmpty)) = true := by
  intro gs
  induction gs with
  | nil => intro k; rfl
  | cons g rest ih =>
    intro k
    unfold parsePGNGo
    dsimp only
    by_cases hm : (extractCompleteLine oracle g).isEmpty = true
    · rw [if_pos hm]
      exact ih k
    · rw [if_neg hm]
      rw [List.all_cons, ih (k + 1)]
      rw [Bool.not_eq_true] at hm
      have hmv : (mkFlashcard (mkId k) now ((extractLineName g).map List.asString)
          (extractCompleteLine oracle g)).moves = extractCompleteLine oracle g := rfl
      rw [hmv, hm]
      rfl

theorem parsePGNGo_length (oracle : DecodeOracle) (mkId : Nat → String) (now : Nat) :
    ∀ (gs : List (List Char)) (k : Nat),
      (parsePGNGo oracle mkId now gs k).length =
        (gs.filter (fun g => !(extractCompleteLine oracle g).isEmpty)).length := by
  intro gs
  induction gs with
  | nil => intro k; rfl
  | cons g rest ih =>
    intro k
    unfold parsePGNGo
    dsimp only
    by_cases hm : (extractCompleteLine oracle g).isEmpty = true
    · rw [if_pos hm]
      rw [List.filter_cons_of_neg (by rw [hm]; simp)]
      exact ih k
    · rw [if_neg hm]
      rw [Bool.not_eq_true] at hm
      rw [List.filter_cons_of_pos (by rw [hm]; rfl)]
      simp only [List.length_cons]
      rw [ih (k + 1)]

theorem buildMoves_filterMap_comment (comments : List (List Char)) :
    ∀ (sans : List String) (i : Nat),
      (buildMoves comments sans i).filterMap (fun m => m.comment) =
        ((comments.drop i).take sans.length).map
          (fun c => (parseCommentMarkup c.asString).cleanText) := by
  intro sans
  induction sans with
  | nil => intro i; simp [buildMoves]
  | cons san rest ih =>
    intro i
    unfold buildMoves
    cases hc : comments.get? i with
    | some c =>
      have hdrop : comments.drop i = c :: comments.drop (i + 1) :=
        get?_some_drop comments i c hc
      dsimp only
      rw [List.filterMap_cons]
      dsimp only
      rw [ih (i + 1), hdrop]
      simp
    | none =>
      have hge : comments.length ≤ i := get?_none_le comments i hc
      dsimp only
      rw [List.filterMap_cons]
      dsimp only
      rw [ih (i + 1)]
      rw [List.drop_eq_nil_of_le hge, List.drop_eq_nil_of_le (by omega)]
      simp

end Lemmas

namespace Examples

open Pgn Storage Sm2 Session

/-- A concrete rules oracle for witnesses: positions are the list of SANs
played so far and every move applies. -/
def listApply : List String → String → Option (List String) :=
  fun p s => some (p ++ [s])

/-- A concrete board loader for witnesses. -/
def listLoad : String → List String := fun _ => []

/-- An unannotated White move. -/
def moveW (s : String) : Move :=
  { san := s, color := SideColor.w, comment := none, highlightedSquares := none, arrows := none }

/-- An unannotated Black move. -/
def moveB (s : String) : Move :=
  { san := s, color := SideColor.b, comment := none, highlightedSquares := none, arrows := none }

/-- A one-move line for session runs. -/
def cardSingleMove : Flashcard :=
  { id := "c1", startFen := initialFen, moves := [moveW "e4"], name := none,
    easinessFactor := 5 / 2, interval := 0, repetitions := 0, nextReviewDate := 0,
    lastReviewed := none, mistakeIndices := [] }

/-- A three-move line carrying a recorded mistake at index 2. -/
def autoCard : Flashcard :=
  { cardSingleMove with
    id := "c2"
    moves := [moveW "e4", moveB "e5", moveW "Nf3"]
    mistakeIndices := [2] }

/-- A stored repertoire holding the one-move line. -/
def repOne : Repertoire :=
  { id := "r1", name := "rep", flashcards := [cardSingleMove], createdAt := 0,
    lastStudied := none, totalCards := 1, streak := 3, longestStreak := 4,
    stats := { totalReviews := 4, correctReviews := 2, accuracy := 50 } }

/-- A store with one repertoire. -/
def storeOne : StorageData := { repertoires := [repOne], version := 1 }

/-- The empty store. -/
def emptyStore : StorageData := { repertoires := [], version := 1 }

/-- A flashcard whose id matches no card of `repOne`. -/
def strayCard : Flashcard := { cardSingleMove with id := "zz" }

/-- A mid-session state with one incorrect and two correct attempts and move
index 0 recorded as a mistake. -/
def stExit : SessionState (List String) :=
  { board := ["e4"], currentMoveIndex := 0, sessionCorrect := 2, sessionIncorrect := 1,
    errorCount := 0, showFeedback := false, lastWhiteMove := none, lastBlackMove := none,
    playedMoves := [], isAutoPlaying := false, moveMistakes := [0] }

/-- A one-move line carrying a prior recorded mistake at index 0, for the
stale-clear run. -/
def staleCard : Flashcard :=
  { cardSingleMove with
    id := "c3"
    mistakeIndices := [0] }

/-- A stored repertoire holding `staleCard`. -/
def repStale : Repertoire :=
  { repOne with
    id := "r2"
    flashcards := [staleCard] }

/-- A store with the `staleCard` repertoire. -/
def storeStale : StorageData := { repertoires := [repStale], version := 1 }

/-- The finished state of playing `staleCard`'s single move correctly: the
completion closure hands storage its stale values — mistake set still `[0]`
and `sessionCorrect` still 0. -/
def wFinalStale : SessionState (List String) :=
  { board := ["e4"], currentMoveIndex := 1, sessionCorrect := 0, sessionIncorrect := 0,
    errorCount := 0, showFeedback := false,
    lastWhiteMove := some { comment := none, highlightedSquares := none, arrows := none },
    lastBlackMove := none,
    playedMoves := [{ san := "e4", color := SideColor.w, moveNumber := 1 }],
    isAutoPlaying := false, moveMistakes := [0] }

/-- The state in which `playOpponentMoves` leaves a fresh session on the
one-move line. -/
def wFinalC1 : SessionState (List String) :=
  { initSession listLoad cardSingleMove with currentMoveIndex := 1 }

/-- Game text whose only comment sits inside a parenthesized variation. -/
def varGame : List Char := "1. e4 (1. d4 {sideline}) e5".toList

/-- An oracle decoding `varGame` to its two mainline moves. -/
def varOracle : DecodeOracle :=
  fun s => if s = varGame then some ["e4", "e5"] else none

/-- A game text with one mainline comment after the first move. -/
def wGame : List Char := "1. e4 {hi} e5".toList

/-- An oracle decoding `wGame` to its two moves. -/
def wOracle : DecodeOracle :=
  fun s => if s = wGame then some ["e4", "e5"] else none

/-- A two-game batch whose second game the oracle rejects. -/
def wContent : List Char :=
  ("[Event \"a\"]\n1. e4\n\n[Event \"b\"]\n1. xx\n").toList

/-- The second, malformed game of `wContent` as split by `splitPGNGames`. -/
def wBadGame : List Char := ("[Event \"b\"]\n1. xx\n\n").toList

/-- An oracle accepting only the first game of `wContent`. -/
def batchOracle : DecodeOracle :=
  fun s => if s = ("1. e4").toList then some ["e4"] else none

/-- A fresh-id supplier for witnesses. -/
def wMkId : Nat → String := fun n => (Nat.toDigits 10 n).asString

end Examples

namespace Claims

open Pgn Storage Sm2 Session Lemmas Examples

/-- C1: the claim states that a completed line hands the scheduler outcome
Correct only if the session had zero incorrect attempts.  Counterexample: on
a one-move line, an incorrect attempt (`a3` instead of the expected `e4`)
followed by the correct move completes the line; the session records one
incorrect attempt, yet `completeSession(true)` is invoked and the score
handed to `calculateSM2` is 1 (Correct). -/
theorem C1_counterexample :
    successFlag (runEvents listLoad listApply cardSingleMove
        [Event.attempt "a3", Event.attempt "e4"]) = some true ∧
    scoreHanded (runEvents listLoad listApply cardSingleMove
        [Event.attempt "a3", Event.attempt "e4"]) = some 1 ∧
    finalIncorrect (runEvents listLoad listApply cardSingleMove
        [Event.attempt "a3", Event.attempt "e4"]) = some 1 := by
  decide

/-- C1 (amended): whenever the cursor reaches the end of the line's move
list, `playOpponentMoves` completes the session with `success = true` and
`updateCard = true` unconditionally — the score handed to the scheduler is 1
(Correct) regardless of the session's incorrect count, which is reflected
only in the stored mistake set and the aggregate counters. -/
theorem C1_completion_always_hands_correct {Pos : Type}
    (applySan : Pos → String → Option Pos) (card : Flashcard)
    (render st : SessionState Pos) (s u : Bool) (stF : SessionState Pos)
    (h : playOpponentMoves applySan card render st = SessionStep.finished s u stF) :
    s = true ∧ u = true ∧
    scoreHanded (SessionStep.finished s u stF) = some 1 := by
  obtain ⟨hs, hu, -, -, -⟩ := playOpponentMoves_finished h
  subst hs
  subst hu
  exact ⟨rfl, rfl, rfl⟩

/-- Witness for C1 (amended) at a concrete completing state. -/
theorem C1_witness :
    playOpponentMoves listApply cardSingleMove (initSession listLoad cardSingleMove)
        (initSession listLoad cardSingleMove) =
      SessionStep.finished true true wFinalC1 ∧
    scoreHanded (SessionStep.finished true true wFinalC1) = some 1 :=
  ⟨by decide,
   (C1_completion_always_hands_correct listApply cardSingleMove
      (initSession listLoad cardSingleMove) (initSession listLoad cardSingleMove)
      true true wFinalC1 (by decide)).2.2⟩

/-- C2: the claim states that each comment is attributed to the move it
textually follows in the variation-stripped text and that comments inside
parenthesized variations are never attributed to mainline moves.
Counterexample: in `1. e4 (1. d4 {sideline}) e5` the only comment lies
inside a variation block and textually follows the variation move `d4`, not
any mainline move; the parser nevertheless attributes it to mainline move
index 0 (`e4`), because comments are zipped with moves by position, with no
variation stripping and no occurrence search. -/
theorem C2_counterexample :
    (extractCompleteLine varOracle varGame).map (fun m => (m.san, m.comment)) =
      [("e4", some "sideline"), ("e5", none)] := by
  decide

/-- C2 (amended): the comments of the header-stripped game text — including
those inside parenthesized variation blocks — are collected in textual order
and attributed to moves by position: the i-th move of the oracle's history
receives the i-th comment while comments remain, regardless of which move
the comment textually follows. -/
theorem C2_sequential_comment_attribution (oracle : DecodeOracle) (gameText : List Char)
    (history : List String)
    (h : oracle (prepGame gameText) = some history) :
    (extractCompleteLine oracle gameText).filterMap (fun m => m.comment) =
      ((extractComments (prepGame gameText)).take history.length).map
        (fun c => (parseCommentMarkup c.asString).cleanText) := by
  unfold extractCompleteLine
  dsimp only
  rw [h]
  rw [buildMoves_filterMap_comment]
  rw [List.drop_zero]

/-- Witness for C2 (amended) on a concrete game. -/
theorem C2_witness :
    wOracle (prepGame wGame) = some ["e4", "e5"] ∧
    (extractCompleteLine wOracle wGame).filterMap (fun m => m.comment) = ["hi"] :=
  ⟨by decide,
   by
    rw [C2_sequential_comment_attribution wOracle wGame ["e4", "e5"] (by decide)]
    decide⟩

/-- C3: a user-initiated exit before the line is complete invokes
`completeSession(false, false)`: the stored flashcard keeps its
`easinessFactor`, `interval`, `repetitions` and `nextReviewDate` unchanged
(no SM-2 update), its mistake set is replaced by the session-local one, and
the repertoire's aggregate counters are updated from the session's correct
and incorrect counts, with the streak reset exactly when an incorrect
attempt occurred. -/
theorem C3_exit_skips_scheduler_updates_stats {Pos : Type} (st : SessionState Pos)
    (card : Flashcard) (now : Nat) (rid : String) (d : StorageData) (rep : Repertoire)
    (j : Nat)
    (hrep : getRepertoire rid d = some rep)
    (hidx : jsFindIndex (fun c => c.id == card.id) rep.flashcards = some j) :
    handleExit st = SessionStep.finished false false st ∧
    scoreHanded (handleExit st) = none ∧
    (findCard rid card.id (completeSessionStore now rid card false false st d)).map
        (fun c => (c.easinessFactor, c.interval, c.repetitions, c.nextReviewDate)) =
      some (card.easinessFactor, card.interval, card.repetitions, card.nextReviewDate) ∧
    (findCard rid card.id (completeSessionStore now rid card false false st d)).map
        (fun c => c.mistakeIndices) = some st.moveMistakes ∧
    (getRepertoire rid (completeSessionStore now rid card false false st d)).map
        (fun r => (r.stats.totalReviews, r.stats.correctReviews, r.streak, r.longestStreak)) =
      some (rep.stats.totalReviews + st.sessionCorrect + st.sessionIncorrect,
            rep.stats.correctReviews + st.sessionCorrect,
            (if st.sessionIncorrect = 0 then rep.streak + st.sessionCorrect else 0),
            (if rep.longestStreak <
                  (if st.sessionIncorrect = 0 then rep.streak + st.sessionCorrect else 0)
             then (if st.sessionIncorrect = 0 then rep.streak + st.sessionCorrect else 0)
             else rep.longestStreak)) := by
  have hspec := completeSessionStore_spec now rid card false false st d rep j hrep hidx
  refine ⟨rfl, rfl, ?_, ?_, hspec.2⟩
  · rw [hspec.1, Option.map_some']
    rfl
  · rw [hspec.1, Option.map_some', applySessionToCard_mistakeIndices]

/-- Witness for C3 at a concrete exited session. -/
theorem C3_witness :
    getRepertoire "r1" storeOne = some repOne ∧
    jsFindIndex (fun c => c.id == cardSingleMove.id) repOne.flashcards = some 0 ∧
    (findCard "r1" cardSingleMove.id
        (completeSessionStore 7 "r1" cardSingleMove false false stExit storeOne)).map
      (fun c => (c.easinessFactor, c.interval, c.repetitions, c.nextReviewDate)) =
      some (cardSingleMove.easinessFactor, cardSingleMove.interval,
        cardSingleMove.repetitions, cardSingleMove.nextReviewDate) ∧
    (findCard "r1" cardSingleMove.id
        (completeSessionStore 7 "r1" cardSingleMove false false stExit storeOne)).map
      (fun c => c.mistakeIndices) = some [0] :=
  ⟨by rfl, by rfl,
   (C3_exit_skips_scheduler_updates_stats stExit cardSingleMove 7 "r1" storeOne repOne 0
      (by rfl) (by rfl)).2.2.1,
   (C3_exit_skips_scheduler_updates_stats stExit cardSingleMove 7 "r1" storeOne repOne 0
      (by rfl) (by rfl)).2.2.2.1⟩

/-- C4 (code bug): the claim — and the source's own comment at
part_004:459, "If no errors this session, clear all mistake indices" — says
a completion with exactly zero incorrect attempts stores the empty mistake
set.  The code does not: `setMoveMistakes(new Set())` is a React state
write invisible to the synchronous `completeSession` of the same tick,
whose closure persists the stale pre-clear set.  Concretely: a card
carrying prior `mistakeIndices = [0]` whose single move is answered
correctly — a session with zero incorrect attempts — completes with
`completeSession(true)` and re-stores `[0]`, not `[]`. -/
theorem C4_stale_mistake_clear :
    runEvents listLoad listApply staleCard [Event.attempt "e4"] =
      SessionStep.finished true true wFinalStale ∧
    wFinalStale.sessionIncorrect = 0 ∧
    wFinalStale.moveMistakes = [0] ∧
    (findCard "r2" staleCard.id
        (completeSessionStore 7 "r2" staleCard true true wFinalStale storeStale)).map
      (fun c => c.mistakeIndices) = some [0] ∧
    some [0] ≠ some ([] : List Nat) := by
  refine ⟨by decide, rfl, rfl, by rfl, by decide⟩

/-- C5: on session start with a card whose recorded mistake indices are valid
indices into the move list, the engine auto-replays exactly the moves whose
index is strictly less than the earliest recorded mistake index, applying
each via the rules oracle (the final board is the oracle fold over that
prefix) and surfacing each replayed move's annotations; with no recorded
mistake nothing is auto-replayed and the session starts at move index 0. -/
theorem C5_resume_to_first_mistake {Pos : Type} (loadFen : String → Pos)
    (applySan : Pos → String → Option Pos) (card : Flashcard)
    (hrange : ∀ x ∈ card.mistakeIndices, x < card.moves.length) :
    (card.mistakeIndices = [] ↔ firstMistakeIndex card = none) ∧
    (firstMistakeIndex card = none →
      loadCard loadFen applySan card = initSession loadFen card) ∧
    (∀ m, firstMistakeIndex card = some m →
      (m ∈ card.mistakeIndices ∧ ∀ x ∈ card.mistakeIndices, m ≤ x) ∧
      ∀ bF, foldSans applySan (loadFen card.startFen) (card.moves.take m) = some bF →
        (loadCard loadFen applySan card).currentMoveIndex = m ∧
        (loadCard loadFen applySan card).board = bF ∧
        ((loadCard loadFen applySan card).lastWhiteMove,
          (loadCard loadFen applySan card).lastBlackMove) =
            annotsFold (card.moves.take m) (none, none) ∧
        (loadCard loadFen applySan card).moveMistakes = card.mistakeIndices ∧
        (loadCard loadFen applySan card).sessionCorrect = 0 ∧
        (loadCard loadFen applySan card).sessionIncorrect = 0) := by
  have hperm := List.perm_insertionSort (· ≤ ·) card.mistakeIndices
  have hsorted := List.sorted_insertionSort (· ≤ ·) card.mistakeIndices
  have hall : ∀ x ∈ card.mistakeIndices.insertionSort (· ≤ ·),
      (fun i => decide (i < card.moves.length)) x = true := by
    intro x hx
    simp only [decide_eq_true_eq]
    exact hrange x (hperm.mem_iff.mp hx)
  have hfm : firstMistakeIndex card =
      (card.mistakeIndices.insertionSort (· ≤ ·)).head? := by
    unfold firstMistakeIndex
    exact jsFind_head_of_all _ hall
  refine ⟨⟨?_, ?_⟩, ?_, ?_⟩
  · intro hnil
    rw [hfm, hnil]
    rfl
  · intro hnone
    rw [hfm] at hnone
    cases hs : card.mistakeIndices.insertionSort (· ≤ ·) with
    | nil =>
      have hp : List.Perm ([] : List Nat) card.mistakeIndices := hs ▸ hperm
      exact List.Perm.eq_nil hp.symm
    | cons y ys =>
      rw [hs] at hnone
      cases hnone
  · intro hnone
    unfold loadCard autoPlayToFirstMistake
    rw [hnone]
  · intro m hm
    rw [hfm] at hm
    cases hs : card.mistakeIndices.insertionSort (· ≤ ·) with
    | nil =>
      rw [hs] at hm
      cases hm
    | cons y ys =>
      rw [hs] at hm
      have hym : y = m := by
        injection hm
      subst hym
      have hysorted : List.Sorted (· ≤ ·) (y :: ys) := hs ▸ hsorted
      obtain ⟨hmin, -⟩ := List.sorted_cons.mp hysorted
      have hmemsort : y ∈ card.mistakeIndices.insertionSort (· ≤ ·) := by
        rw [hs]
        exact List.mem_cons_self y ys
      have hmem : y ∈ card.mistakeIndices := hperm.mem_iff.mp hmemsort
      have hfm2 : firstMistakeIndex card = some y := by
        rw [hfm, hs]
        rfl
      refine ⟨⟨hmem, ?_⟩, ?_⟩
      · intro x hx
        have hx' : x ∈ y :: ys := by
          rw [← hs]
          exact hperm.mem_iff.mpr hx
        rcases List.mem_cons.mp hx' with h | h
        · exact Nat.le_of_eq h.symm
        · exact hmin x h
      · intro bF hfold
        have hmlt : y < card.moves.length := hrange y hmem
        have hload : loadCard loadFen applySan card =
            autoPlayGo applySan (initSession loadFen card)
              (List.enumFrom 0 (card.moves.take y)) := by
          unfold loadCard autoPlayToFirstMistake
          rw [hfm2]
          rfl
        obtain ⟨hB, hI, hA, hM, hC, hInc⟩ :=
          autoPlayGo_spec applySan (card.moves.take y) 0 (initSession loadFen card) bF
            rfl hfold
        rw [hload]
        refine ⟨?_, hB, ?_, hM, hC, hInc⟩
        · rw [hI, List.length_take, Nat.min_eq_left (Nat.le_of_lt hmlt)]
          omega
        · exact hA

/-- Witness for C5 on a three-move card with recorded mistake index 2: the
two moves before the mistake are auto-replayed. -/
theorem C5_witness :
    (∀ x ∈ autoCard.mistakeIndices, x < autoCard.moves.length) ∧
    foldSans listApply (listLoad autoCard.startFen) (autoCard.moves.take 2) =
      some ["e4", "e5"] ∧
    ((loadCard listLoad listApply autoCard).currentMoveIndex = 2 ∧
      (loadCard listLoad listApply autoCard).board = ["e4", "e5"]) := by
  refine ⟨by decide, by rfl, ?_⟩
  have h := ((C5_resume_to_first_mistake listLoad listApply autoCard (by decide)).2.2
    2 (by rfl)).2 ["e4", "e5"] (by rfl)
  exact ⟨h.1, h.2.1⟩

/-- C6: the claim states that `cleanText` removes every `[%<word> ...]`
directive of any tag.  Counterexample: a `[%clk ...]` directive is not
removed by `parseCommentMarkup`, while removing every tagged directive and
trimming would leave `hi`. -/
theorem C6_counterexample :
    (parseCommentMarkup "[%clk 0:05:00] hi").cleanText = "[%clk 0:05:00] hi" ∧
    stripAllTaggedThenTrim "[%clk 0:05:00] hi" = "hi" ∧
    (parseCommentMarkup "[%clk 0:05:00] hi").cleanText ≠
      stripAllTaggedThenTrim "[%clk 0:05:00] hi" := by
  decide

/-- C6 (amended): for every raw annotation string, `cleanText` equals the raw
string with every `[%csl ...]` directive removed, then every `[%cal ...]`
directive removed from the result — only those two recognized kinds, any
other tagged directive is left in the visible text — and finally trimmed of
leading and trailing whitespace.  The right-hand side is the independent
find-first-occurrence removal `stripTagSpec`. -/
theorem C6_cleanText_strips_only_csl_cal (raw : String) :
    (parseCommentMarkup raw).cleanText =
      (trimL (stripTagSpec calTag (stripTagSpec cslTag raw.toList))).asString := by
  have h1 : stripMatched cslTag raw.toList 0 = stripTagSpec cslTag raw.toList :=
    stripMatched_eq_stripTagSpec cslTag raw.toList.length raw.toList (Nat.le_refl _)
  have h2 : stripMatched calTag (stripTagSpec cslTag raw.toList) 0 =
      stripTagSpec calTag (stripTagSpec cslTag raw.toList) :=
    stripMatched_eq_stripTagSpec calTag (stripTagSpec cslTag raw.toList).length _
      (Nat.le_refl _)
  show (trimL (stripMatched calTag (stripMatched cslTag raw.toList 0) 0)).asString = _
  rw [h1, h2]

/-- C7: on the input `Good move! [%csl Ra1,Gb2][%cal Yb4a2]` the markup
parser returns clean text `Good move!`, highlighted squares a1 with colour
letter R (red) and b2 with G (green), and one arrow b4→a2 with Y (yellow),
in that order; `colorToRgb` renders those letters as red, green and
yellow. -/
theorem C7_markup_example :
    parseCommentMarkup "Good move! [%csl Ra1,Gb2][%cal Yb4a2]" =
      { cleanText := "Good move!"
        highlightedSquares := [⟨"a1", 'R'⟩, ⟨"b2", 'G'⟩]
        arrows := [⟨"b4", "a2", 'Y'⟩] } ∧
    colorToRgb 'R' = some "rgb(255, 0, 0)" ∧
    colorToRgb 'G' = some "rgb(0, 255, 0)" ∧
    colorToRgb 'Y' = some "rgb(255, 255, 0)" := by
  decide

/-- C8: when a session invokes the scheduler (`updateCard = true` in
`completeSession`), the outcome passed as `success ? 1 : 0` is mapped to
SuperMemo quality 4 for Correct and 0 for Incorrect before the scheduling
state is updated: the resulting scheduling fields agree with the §4.5
scheduler `scheduleSpec` evaluated at that quality. -/
theorem C8_outcome_quality_mapping (success : Bool) (now : Nat) (mistakes : List Nat)
    (card : Flashcard) :
    sm2Quality (sm2Score success) = (if success then 4 else 0) ∧
    calculateSM2 (sm2Score success) card.easinessFactor card.interval card.repetitions =
      scheduleSpec success card.easinessFactor card.interval card.repetitions ∧
    (applySessionToCard now success true mistakes card).easinessFactor =
      (scheduleSpec success card.easinessFactor card.interval card.repetitions).easinessFactor ∧
    (applySessionToCard now success true mistakes card).interval =
      (scheduleSpec success card.easinessFactor card.interval card.repetitions).interval ∧
    (applySessionToCard now success true mistakes card).repetitions =
      (scheduleSpec success card.easinessFactor card.interval card.repetitions).repetitions := by
  cases success
  · exact ⟨rfl, rfl, rfl, rfl, rfl⟩
  · exact ⟨rfl, rfl, rfl, rfl, rfl⟩

/-- C9: `parsePGNToFlashcards` never returns a flashcard with an empty move
list; the number of flashcards equals the number of split games whose
extraction yields at least one move (zero-move games are discarded, the rest
of the batch continues, one flashcard per surviving game); a game whose move
text the oracle rejects extracts to the empty move list and is therefore
discarded. -/
theorem C9_no_empty_flashcards (oracle : DecodeOracle) (mkId : Nat → String) (now : Nat)
    (content : List Char) :
    ((parsePGNToFlashcards oracle mkId now content).all (fun fc => !fc.moves.isEmpty)) = true ∧
    (parsePGNToFlashcards oracle mkId now content).length =
      ((splitPGNGames content).filter
        (fun g => !(extractCompleteLine oracle g).isEmpty)).length ∧
    (∀ g : List Char, oracle (prepGame g) = none → extractCompleteLine oracle g = []) := by
  refine ⟨parsePGNGo_all oracle mkId now (splitPGNGames content) 0,
    parsePGNGo_length oracle mkId now (splitPGNGames content) 0, ?_⟩
  intro g hg
  unfold extractCompleteLine
  dsimp only
  rw [hg]

/-- Witness for C9 on a two-game batch whose second game the oracle
rejects: that game is discarded and the batch still yields one flashcard. -/
theorem C9_witness :
    extractCompleteLine batchOracle wBadGame = [] ∧
    (parsePGNToFlashcards batchOracle wMkId 0 wContent).length = 1 := by
  constructor
  · exact (C9_no_empty_flashcards batchOracle wMkId 0 wContent).2.2 wBadGame (by decide)
  · rw [(C9_no_empty_flashcards batchOracle wMkId 0 wContent).2.1]
    decide

/-- C10: `updateFlashcard` with a repertoire id matching no stored
repertoire, or with a flashcard whose id matches no card of the found
repertoire, leaves the stored data completely unchanged. -/
theorem C10_updateFlashcard_noop (d : StorageData) (rid : String) (fc : Flashcard) :
    (getRepertoire rid d = none → updateFlashcard rid fc d = d) ∧
    (∀ rep, getRepertoire rid d = some rep →
      jsFindIndex (fun c => c.id == fc.id) rep.flashcards = none →
      updateFlashcard rid fc d = d) := by
  constructor
  · intro h
    unfold updateFlashcard
    rw [h]
  · intro rep h1 h2
    unfold updateFlashcard
    rw [h1]
    dsimp only
    rw [h2]

/-- Witness for C10: a missing repertoire id on the empty store and a
missing card id on a stored repertoire are both silent no-ops. -/
theorem C10_witness :
    updateFlashcard "r1" strayCard emptyStore = emptyStore ∧
    updateFlashcard "r1" strayCard storeOne = storeOne :=
  ⟨(C10_updateFlashcard_noop emptyStore "r1" strayCard).1 (by rfl),
   (C10_updateFlashcard_noop storeOne "r1" strayCard).2 repOne (by rfl) (by rfl)⟩

end Claims

end ChessTrainer
